import Mathlib

/-!
Verification of the orderbook-analyzer repository's slippage engine.

The source (JavaScript) is embedded shallowly over exact rational
arithmetic: JS numbers become `ℚ`, JS strings become `String`, and a JS
value that may be `null` or a string becomes `Option String`.  The two
slippage estimators (`calculateSlippage` in data-collector.js and
`calcSlippage` in the server variant) share one for-loop, embedded here
as the recursive function `walk`.  Fields that a JS return object leaves
undefined are set to `0` / `false` here; every theorem that depends on a
field only reads it in branches where the source assigns it, except
where explicitly noted.
-/

/-- One price level of an order book: `{ price, size }` as produced by the
fetch adapters (`parseFloat` of the raw payload). -/
structure Level where
  price : ℚ
  size : ℚ
deriving Repr, DecidableEq

/-- An order book: `{ bids, asks }`, each a list of levels in the order the
adapter returned them (bids intended descending, asks ascending).  A `null`
book is modelled as the empty book, which takes the same guard branch. -/
structure OrderBook where
  bids : List Level
  asks : List Level
deriving Repr, DecidableEq

/-- Accumulator of the fill loop: `remaining`, `totalCost`, `totalFilled`,
`levelsUsed` from data-collector.js lines 105-108. -/
structure WalkState where
  remaining : ℚ
  totalCost : ℚ
  totalFilled : ℚ
  levelsUsed : ℕ
deriving Repr, DecidableEq

/-- The fill loop of `calculateSlippage` / `calcSlippage` (identical in all
source variants):

for (const level of levels) \x7b
  if (remaining <= 0) break;
  const fillUsd = Math.min(remaining, level.price * level.size);
  totalCost += fillUsd;
  totalFilled += fillUsd / level.price;
  remaining -= fillUsd;
  levelsUsed++;
\x7d -/
def walk (remaining totalCost totalFilled : ℚ) (levelsUsed : ℕ) :
    List Level → WalkState
  | [] => ⟨remaining, totalCost, totalFilled, levelsUsed⟩
  | l :: ls =>
    if remaining ≤ 0 then ⟨remaining, totalCost, totalFilled, levelsUsed⟩
    else
      walk (remaining - min remaining (l.price * l.size))
        (totalCost + min remaining (l.price * l.size))
        (totalFilled + min remaining (l.price * l.size) / l.price)
        (levelsUsed + 1) ls

/-- The ladder selected by the estimators:
`side === 'buy' ? orderbook.asks : orderbook.bids`. -/
def slipLevels (ob : OrderBook) (side : String) : List Level :=
  if side = "buy" then ob.asks else ob.bids

/-- Best bid price: `orderbook.bids[0]?.price || 0` (the `|| 0` maps an
absent first level to 0; on a present rational price it is the identity,
since `0 || 0` is `0`). -/
def bestBid (ob : OrderBook) : ℚ :=
  match ob.bids.head? with
  | some l => l.price
  | none => 0

/-- Best ask price: `orderbook.asks[0]?.price || 0`. -/
def bestAsk (ob : OrderBook) : ℚ :=
  match ob.asks.head? with
  | some l => l.price
  | none => 0

/-- Result record of `calculateSlippage` (data-collector.js).  The source's
early returns omit `spread`, `filledUsd`, `partialFill`, `unfilledUsd`
(and its zero-fill return omits `spread`/`filledUsd` too); those fields
are `0`/`false` here where the source leaves them undefined. -/
structure FillResult where
  valid : Bool
  midPrice : ℚ
  avgPrice : ℚ
  slippage : ℚ
  slippageBps : ℚ
  spread : ℚ
  filled : ℚ
  filledUsd : ℚ
  levels : ℕ
  partialFill : Bool
  unfilledUsd : ℚ
deriving Repr, DecidableEq

/-- Embedding of `calculateSlippage(orderbook, tradeSize, side)` from
data-collector.js lines 89-140.  The source's const bindings (`midPrice`,
`spread`, the loop results) are inlined here, which changes nothing
semantically. -/
def calculateSlippage (ob : OrderBook) (tradeSize : ℚ) (side : String) :
    FillResult :=
  if ob.bids.isEmpty || ob.asks.isEmpty then
    { valid := false, midPrice := 0, avgPrice := 0, slippage := 0,
      slippageBps := 0, spread := 0, filled := 0, filledUsd := 0,
      levels := 0, partialFill := false, unfilledUsd := 0 }
  else if bestAsk ob ≤ 0 || bestBid ob ≤ 0 then
    { valid := false, midPrice := 0, avgPrice := 0, slippage := 0,
      slippageBps := 0, spread := 0, filled := 0, filledUsd := 0,
      levels := 0, partialFill := false, unfilledUsd := 0 }
  else if (walk tradeSize 0 0 0 (slipLevels ob side)).totalFilled = 0 then
    { valid := false, midPrice := (bestBid ob + bestAsk ob) / 2,
      avgPrice := (bestBid ob + bestAsk ob) / 2,
      slippage := 0, slippageBps := 0, spread := 0, filled := 0,
      filledUsd := 0,
      levels := (walk tradeSize 0 0 0 (slipLevels ob side)).levelsUsed,
      partialFill := false, unfilledUsd := 0 }
  else
    { valid := true, midPrice := (bestBid ob + bestAsk ob) / 2,
      avgPrice := (walk tradeSize 0 0 0 (slipLevels ob side)).totalCost /
        (walk tradeSize 0 0 0 (slipLevels ob side)).totalFilled,
      slippage := |((walk tradeSize 0 0 0 (slipLevels ob side)).totalCost /
          (walk tradeSize 0 0 0 (slipLevels ob side)).totalFilled -
          (bestBid ob + bestAsk ob) / 2) /
        ((bestBid ob + bestAsk ob) / 2) * 100|,
      slippageBps := |((walk tradeSize 0 0 0 (slipLevels ob side)).totalCost /
          (walk tradeSize 0 0 0 (slipLevels ob side)).totalFilled -
          (bestBid ob + bestAsk ob) / 2) /
        ((bestBid ob + bestAsk ob) / 2) * 100| * 100,
      spread := (bestAsk ob - bestBid ob) /
        ((bestBid ob + bestAsk ob) / 2) * 100,
      filled := (walk tradeSize 0 0 0 (slipLevels ob side)).totalFilled,
      filledUsd := (walk tradeSize 0 0 0 (slipLevels ob side)).totalCost,
      levels := (walk tradeSize 0 0 0 (slipLevels ob side)).levelsUsed,
      partialFill :=
        decide (0 < (walk tradeSize 0 0 0 (slipLevels ob side)).remaining),
      unfilledUsd := (walk tradeSize 0 0 0 (slipLevels ob side)).remaining }

/-- Result record of `calcSlippage` (src/unnamed/part_001 lines 106-126).
Its invalid returns are literally `\x7b valid: false \x7d`; the remaining
fields are `0` here where the source leaves them undefined. -/
structure SlipResult where
  valid : Bool
  midPrice : ℚ
  avgPrice : ℚ
  slippage : ℚ
  slippageBps : ℚ
  levels : ℕ
  filledUsd : ℚ
deriving Repr, DecidableEq

/-- Embedding of `calcSlippage(ob, size, side)` from src/unnamed/part_001
lines 106-126 (the guard, ladder selection and loop are line-identical in
src/server.js lines 237-251, which only reports fewer fields).  The
source's const bindings are inlined, changing nothing semantically. -/
def calcSlippage (ob : OrderBook) (size : ℚ) (side : String) : SlipResult :=
  if ob.bids.isEmpty || ob.asks.isEmpty then
    { valid := false, midPrice := 0, avgPrice := 0, slippage := 0,
      slippageBps := 0, levels := 0, filledUsd := 0 }
  else if bestAsk ob ≤ 0 || bestBid ob ≤ 0 then
    { valid := false, midPrice := 0, avgPrice := 0, slippage := 0,
      slippageBps := 0, levels := 0, filledUsd := 0 }
  else if (walk size 0 0 0 (slipLevels ob side)).totalFilled = 0 then
    { valid := false, midPrice := 0, avgPrice := 0, slippage := 0,
      slippageBps := 0, levels := 0, filledUsd := 0 }
  else
    { valid := true, midPrice := (bestBid ob + bestAsk ob) / 2,
      avgPrice := (walk size 0 0 0 (slipLevels ob side)).totalCost /
        (walk size 0 0 0 (slipLevels ob side)).totalFilled,
      slippage := |((walk size 0 0 0 (slipLevels ob side)).totalCost /
          (walk size 0 0 0 (slipLevels ob side)).totalFilled -
          (bestBid ob + bestAsk ob) / 2) /
        ((bestBid ob + bestAsk ob) / 2) * 100|,
      slippageBps := |((walk size 0 0 0 (slipLevels ob side)).totalCost /
          (walk size 0 0 0 (slipLevels ob side)).totalFilled -
          (bestBid ob + bestAsk ob) / 2) /
        ((bestBid ob + bestAsk ob) / 2) * 100| * 100,
      levels := (walk size 0 0 0 (slipLevels ob side)).levelsUsed,
      filledUsd := (walk size 0 0 0 (slipLevels ob side)).totalCost }

/-- The canonical-order list of valid per-venue entries built by
`collectData` (data-collector.js lines 197-202):
`[hlSlip.valid && \x7b platform, slippage \x7d, ...].filter(Boolean)`.
Each entry is a `(platform, slippage)` pair. -/
def validResults (hl lt asr bn : FillResult) : List (String × ℚ) :=
  (if hl.valid then [("hyperliquid", hl.slippage)] else []) ++
  (if lt.valid then [("lighter", lt.slippage)] else []) ++
  (if asr.valid then [("aster", asr.slippage)] else []) ++
  (if bn.valid then [("binance", bn.slippage)] else [])

/-- Stable insertion of one entry into a list already sorted by slippage:
the entry goes before the first element that does not compare strictly
below it, so equal keys keep their original relative order. -/
def insertSlip (x : String × ℚ) : List (String × ℚ) → List (String × ℚ)
  | [] => [x]
  | y :: ys => if y.2 < x.2 then y :: insertSlip x ys else x :: y :: ys

/-- Embedding of `.sort((a, b) => a.slippage - b.slippage)`:
ECMAScript 2019 requires `Array.prototype.sort` to be stable, and with the
consistent comparator `a.slippage - b.slippage` any stable sort computes
this insertion sort (ascending by slippage, ties in input order). -/
def sortBySlip (l : List (String × ℚ)) : List (String × ℚ) :=
  l.foldr insertSlip []

/-- Winner selection of `collectData` (data-collector.js lines 204-206):
`validResults.length > 0 ? validResults.sort(...)[0].platform : null`.
JS `null` is modelled as `none`. -/
def collectWinner (hl lt asr bn : FillResult) : Option String :=
  (sortBySlip (validResults hl lt asr bn)).head?.map Prod.fst

/-- The valid-entry list built by the `/api/sheets` endpoint
(src/server.js line 258, identically src/unnamed/part_001 line 237). -/
def sheetsValidResults (hl lt asr bn : SlipResult) : List (String × ℚ) :=
  (if hl.valid then [("Hyperliquid", hl.slippage)] else []) ++
  (if lt.valid then [("Lighter", lt.slippage)] else []) ++
  (if asr.valid then [("Aster", asr.slippage)] else []) ++
  (if bn.valid then [("Binance", bn.slippage)] else [])

/-- Winner of the `/api/sheets` endpoint (src/server.js line 259):
`valid.length ? valid.sort((a, b) => a.s - b.s)[0].name : 'N/A'`.
The JS value is a string or null, modelled as `Option String`; this code
path always yields a string (the sentinel `"N/A"` when nothing is valid). -/
def sheetsWinner (hl lt asr bn : SlipResult) : Option String :=
  match (sortBySlip (sheetsValidResults hl lt asr bn)).head? with
  | some p => some p.1
  | none => some "N/A"

/-- Winner rule following the spec's words (section 4.3): the venue with
minimum slippage among the listed entries, ties broken in favor of the
entry appearing first in the list.  Used to compare the implemented
sort-based selection against the specified rule. -/
def specWinner : List (String × ℚ) → Option (String × ℚ)
  | [] => none
  | x :: l =>
    match specWinner l with
    | none => some x
    | some b => if b.2 < x.2 then some b else some x

/-- Ladder walk following the spec's words (section 4.2, step 3): at each
level consume `min(remainingNotional, price * size)`, accumulate cost and
base filled, count the level, and stop when remaining notional reaches
zero or the ladder is exhausted. -/
def specLadderWalk (remainingNotional totalCost totalBaseFilled : ℚ)
    (levelsConsumed : ℕ) : List Level → WalkState
  | [] => ⟨remainingNotional, totalCost, totalBaseFilled, levelsConsumed⟩
  | l :: ls =>
    if remainingNotional = 0 then
      ⟨remainingNotional, totalCost, totalBaseFilled, levelsConsumed⟩
    else
      specLadderWalk
        (remainingNotional - min remainingNotional (l.price * l.size))
        (totalCost + min remainingNotional (l.price * l.size))
        (totalBaseFilled + min remainingNotional (l.price * l.size) / l.price)
        (levelsConsumed + 1) ls

/-- Guardedness of the divisions executed by the fill loop: mirrors `walk`
and records whether every level whose `fillUsd / level.price` division is
actually executed has a nonzero price (in the floating-point source a zero
price there produces `0 / 0 = NaN`). -/
def walkGuarded (remaining : ℚ) : List Level → Bool
  | [] => true
  | l :: ls =>
    if remaining ≤ 0 then true
    else
      decide (l.price ≠ 0) &&
        walkGuarded (remaining - min remaining (l.price * l.size)) ls

/-- Total quote-denominated liquidity of a ladder: the sum of
`price * size` over its levels. -/
def totalCap (L : List Level) : ℚ :=
  (L.map (fun l => l.price * l.size)).sum

/-- Sum of the base sizes of a ladder's levels. -/
def sizeSum (L : List Level) : ℚ :=
  (L.map Level.size).sum

/-- Remaining notional after running the fill loop from a clean start. -/
def wrem (n : ℚ) (L : List Level) : ℚ := (walk n 0 0 0 L).remaining

/-- Total cost accumulated by the fill loop from a clean start. -/
def wcost (n : ℚ) (L : List Level) : ℚ := (walk n 0 0 0 L).totalCost

/-- Total base filled by the fill loop from a clean start. -/
def wfill (n : ℚ) (L : List Level) : ℚ := (walk n 0 0 0 L).totalFilled

/-- Levels consumed by the fill loop from a clean start. -/
def wlev (n : ℚ) (L : List Level) : ℕ := (walk n 0 0 0 L).levelsUsed

/-- A one-level-per-side book used as a concrete witness input
(spec section 8, scenario 1). -/
def bookSimple : OrderBook := ⟨[⟨100, 1⟩], [⟨101, 1⟩]⟩

/-- A crossed book: best bid 101 is above best ask 100, both sides
non-empty with positive prices and sizes. -/
def crossedBook : OrderBook := ⟨[⟨101, 1⟩], [⟨100, 1⟩]⟩

/-- A crossed book with a two-level ask ladder sorted ascending by price:
best bid 103 is above best ask 100. -/
def crossedBook2 : OrderBook := ⟨[⟨103, 1⟩], [⟨100, 1⟩, ⟨106, 1⟩]⟩

/-- A book whose best prices are positive but whose ask ladder contains a
zero-price level below the top. -/
def zeroPriceBook : OrderBook := ⟨[⟨100, 1⟩], [⟨101, 1⟩, ⟨0, 1⟩, ⟨102, 1⟩]⟩

/-- The empty book (also the model of a `null` book). -/
def emptyBook : OrderBook := ⟨[], []⟩

/-- An invalid fill result, as produced by the estimator on the empty
book. -/
def invalidFR : FillResult := calculateSlippage emptyBook 100 ("buy")

/-- An invalid server-variant result, as produced on the empty book. -/
def invalidSR : SlipResult := calcSlippage emptyBook 100 ("buy")

example :
    (calculateSlippage ⟨[⟨100, 1⟩], [⟨101, 1⟩]⟩ 50 ("buy")).valid = true := by
  norm_num [calculateSlippage, walk, slipLevels, bestBid, bestAsk, min_def]

example :
    (calculateSlippage ⟨[⟨100, 1⟩], [⟨101, 1⟩]⟩ 50 ("buy")).avgPrice = 101 := by
  norm_num [calculateSlippage, walk, slipLevels, bestBid, bestAsk, min_def]

example :
    (calculateSlippage ⟨[⟨101, 1⟩], [⟨100, 1⟩]⟩ 50 ("buy")).valid = true := by
  norm_num [calculateSlippage, walk, slipLevels, bestBid, bestAsk, min_def]

example :
    (calculateSlippage ⟨[⟨100, 1⟩], [⟨101, 1⟩]⟩ 50 ("buy")).slippage
      = 10000/201 / 100 := by
  norm_num [calculateSlippage, walk, slipLevels, bestBid, bestAsk, min_def,
    abs_div, abs_sub_comm]

theorem walk_nil (n c b : ℚ) (k : ℕ) : walk n c b k [] = ⟨n, c, b, k⟩ := rfl

theorem walk_cons (n c b : ℚ) (k : ℕ) (l : Level) (ls : List Level) :
    walk n c b k (l :: ls) =
      if n ≤ 0 then ⟨n, c, b, k⟩
      else
        walk (n - min n (l.price * l.size)) (c + min n (l.price * l.size))
          (b + min n (l.price * l.size) / l.price) (k + 1) ls := rfl

theorem walk_nonpos {n : ℚ} (h : n ≤ 0) (c b : ℚ) (k : ℕ) (L : List Level) :
    walk n c b k L = ⟨n, c, b, k⟩ := by
  cases L with
  | nil => rfl
  | cons l ls => rw [walk_cons, if_pos h]

theorem walk_acc (L : List Level) (n c b : ℚ) (k : ℕ) :
    walk n c b k L =
      ⟨(walk n 0 0 0 L).remaining, c + (walk n 0 0 0 L).totalCost,
        b + (walk n 0 0 0 L).totalFilled, k + (walk n 0 0 0 L).levelsUsed⟩ := by
  induction L generalizing n c b k with
  | nil => simp [walk_nil]
  | cons l ls ih =>
    by_cases h : n ≤ 0
    · simp [walk_cons, h]
    · rw [walk_cons, if_neg h, walk_cons, if_neg h,
        ih (n - min n (l.price * l.size)) (c + min n (l.price * l.size)),
        ih (n - min n (l.price * l.size)) (0 + min n (l.price * l.size))]
      simp only [WalkState.mk.injEq, true_and]
      refine ⟨by ring, by ring, by omega⟩

theorem wrem_nonpos {n : ℚ} (h : n ≤ 0) (L : List Level) : wrem n L = n := by
  simp [wrem, walk_nonpos h]

theorem wcost_nonpos {n : ℚ} (h : n ≤ 0) (L : List Level) : wcost n L = 0 := by
  simp [wcost, walk_nonpos h]

theorem wfill_nonpos {n : ℚ} (h : n ≤ 0) (L : List Level) : wfill n L = 0 := by
  simp [wfill, walk_nonpos h]

theorem wlev_nonpos {n : ℚ} (h : n ≤ 0) (L : List Level) : wlev n L = 0 := by
  simp [wlev, walk_nonpos h]

theorem wrem_nil (n : ℚ) : wrem n [] = n := rfl

theorem wcost_nil (n : ℚ) : wcost n [] = 0 := rfl

theorem wfill_nil (n : ℚ) : wfill n [] = 0 := rfl

theorem wlev_nil (n : ℚ) : wlev n [] = 0 := rfl

theorem wrem_cons {n : ℚ} (h : ¬ n ≤ 0) (l : Level) (ls : List Level) :
    wrem n (l :: ls) = wrem (n - min n (l.price * l.size)) ls := by
  simp only [wrem, walk_cons, if_neg h]
  rw [walk_acc]

theorem wcost_cons {n : ℚ} (h : ¬ n ≤ 0) (l : Level) (ls : List Level) :
    wcost n (l :: ls) =
      min n (l.price * l.size) + wcost (n - min n (l.price * l.size)) ls := by
  simp only [wcost, walk_cons, if_neg h]
  rw [walk_acc]
  simp

theorem wfill_cons {n : ℚ} (h : ¬ n ≤ 0) (l : Level) (ls : List Level) :
    wfill n (l :: ls) =
      min n (l.price * l.size) / l.price +
        wfill (n - min n (l.price * l.size)) ls := by
  simp only [wfill, walk_cons, if_neg h]
  rw [walk_acc]
  simp

theorem wlev_cons {n : ℚ} (h : ¬ n ≤ 0) (l : Level) (ls : List Level) :
    wlev n (l :: ls) = wlev (n - min n (l.price * l.size)) ls + 1 := by
  simp only [wlev, walk_cons, if_neg h]
  rw [walk_acc]
  simp
  omega

theorem step_nonneg (n x : ℚ) : 0 ≤ n - min n x :=
  sub_nonneg.mpr (min_le_left n x)

theorem step_mono {n1 n2 : ℚ} (x : ℚ) (h : n1 ≤ n2) :
    n1 - min n1 x ≤ n2 - min n2 x := by
  rcases le_total n1 x with h1 | h1
  · have : min n1 x = n1 := min_eq_left h1
    rw [this, sub_self]
    exact step_nonneg n2 x
  · have e1 : min n1 x = x := min_eq_right h1
    have e2 : min n2 x = x := min_eq_right (le_trans h1 h)
    rw [e1, e2]
    linarith

theorem wrem_add_wcost (L : List Level) (n : ℚ) : wrem n L + wcost n L = n := by
  induction L generalizing n with
  | nil => simp [wrem_nil, wcost_nil]
  | cons l ls ih =>
    by_cases h : n ≤ 0
    · simp [wrem_nonpos h, wcost_nonpos h]
    · rw [wrem_cons h, wcost_cons h]
      have := ih (n - min n (l.price * l.size))
      linarith

theorem wrem_nonneg (L : List Level) {n : ℚ} (h : 0 ≤ n) : 0 ≤ wrem n L := by
  induction L generalizing n with
  | nil => simpa [wrem_nil] using h
  | cons l ls ih =>
    by_cases h0 : n ≤ 0
    · simpa [wrem_nonpos h0] using h
    · rw [wrem_cons h0]
      exact ih (step_nonneg n _)

theorem wcost_le (L : List Level) {n : ℚ} (h : 0 ≤ n) : wcost n L ≤ n := by
  have h1 := wrem_add_wcost L n
  have h2 := wrem_nonneg L h
  linarith

theorem wlev_mono (L : List Level) {n1 n2 : ℚ} (h : n1 ≤ n2) :
    wlev n1 L ≤ wlev n2 L := by
  induction L generalizing n1 n2 with
  | nil => simp [wlev_nil]
  | cons l ls ih =>
    by_cases h1 : n1 ≤ 0
    · simp [wlev_nonpos h1]
    · have h2 : ¬ n2 ≤ 0 := fun hc => h1 (le_trans h hc)
      rw [wlev_cons h1, wlev_cons h2]
      exact Nat.add_le_add_right (ih (step_mono _ h)) 1

theorem wcost_nonneg (L : List Level)
    (hL : ∀ l ∈ L, 0 ≤ l.price * l.size) (n : ℚ) : 0 ≤ wcost n L := by
  induction L generalizing n with
  | nil => simp [wcost_nil]
  | cons l ls ih =>
    by_cases h1 : n ≤ 0
    · simp [wcost_nonpos h1]
    · rw [wcost_cons h1]
      have hf : 0 ≤ min n (l.price * l.size) :=
        le_min (le_of_not_le h1) (hL l (by simp))
      have := ih (fun x hx => hL x (by simp [hx])) (n - min n (l.price * l.size))
      linarith

theorem wfill_nonneg (L : List Level)
    (hL : ∀ l ∈ L, 0 < l.price ∧ 0 ≤ l.size) (n : ℚ) : 0 ≤ wfill n L := by
  induction L generalizing n with
  | nil => simp [wfill_nil]
  | cons l ls ih =>
    by_cases h1 : n ≤ 0
    · simp [wfill_nonpos h1]
    · rw [wfill_cons h1]
      have hx : 0 ≤ l.price * l.size :=
        mul_nonneg (hL l (by simp)).1.le (hL l (by simp)).2
      have hf : 0 ≤ min n (l.price * l.size) := le_min (le_of_not_le h1) hx
      have hdiv : 0 ≤ min n (l.price * l.size) / l.price :=
        div_nonneg hf (hL l (by simp)).1.le
      have := ih (fun x hx => hL x (by simp [hx])) (n - min n (l.price * l.size))
      linarith

theorem wcost_mono (L : List Level) {n1 n2 : ℚ} (h : n1 ≤ n2)
    (hL : ∀ l ∈ L, 0 ≤ l.price * l.size) : wcost n1 L ≤ wcost n2 L := by
  induction L generalizing n1 n2 with
  | nil => simp [wcost_nil]
  | cons l ls ih =>
    by_cases h1 : n1 ≤ 0
    · rw [wcost_nonpos h1]
      exact wcost_nonneg _ hL n2
    · have h2 : ¬ n2 ≤ 0 := fun hc => h1 (le_trans h hc)
      rw [wcost_cons h1, wcost_cons h2]
      have hmin : min n1 (l.price * l.size) ≤ min n2 (l.price * l.size) :=
        min_le_min h le_rfl
      have := ih (step_mono (l.price * l.size) h)
        (fun x hx => hL x (by simp [hx]))
      linarith

theorem wfill_mono (L : List Level) {n1 n2 : ℚ} (h : n1 ≤ n2)
    (hL : ∀ l ∈ L, 0 < l.price ∧ 0 ≤ l.size) : wfill n1 L ≤ wfill n2 L := by
  induction L generalizing n1 n2 with
  | nil => simp [wfill_nil]
  | cons l ls ih =>
    by_cases h1 : n1 ≤ 0
    · rw [wfill_nonpos h1]
      exact wfill_nonneg _ hL n2
    · have h2 : ¬ n2 ≤ 0 := fun hc => h1 (le_trans h hc)
      rw [wfill_cons h1, wfill_cons h2]
      have hmin : min n1 (l.price * l.size) ≤ min n2 (l.price * l.size) :=
        min_le_min h le_rfl
      have hdiv : min n1 (l.price * l.size) / l.price ≤
          min n2 (l.price * l.size) / l.price :=
        (div_le_div_iff_of_pos_right (hL l (by simp)).1).mpr hmin
      have := ih (step_mono (l.price * l.size) h)
        (fun x hx => hL x (by simp [hx]))
      linarith

theorem div_price_le {q p v : ℚ} (hq : q ≤ p) (hp : 0 < p) (hv : 0 ≤ v) :
    q * (v / p) ≤ v := by
  have h1 : q * (v / p) ≤ p * (v / p) :=
    mul_le_mul_of_nonneg_right hq (div_nonneg hv hp.le)
  have h2 : p * (v / p) = v := by field_simp
  linarith

theorem div_price_ge {q p v : ℚ} (hq : p ≤ q) (hp : 0 < p) (hv : 0 ≤ v) :
    v ≤ q * (v / p) := by
  have h1 : p * (v / p) ≤ q * (v / p) :=
    mul_le_mul_of_nonneg_right hq (div_nonneg hv hp.le)
  have h2 : p * (v / p) = v := by field_simp
  linarith

theorem wfill_floor (L : List Level) {q : ℚ}
    (hL : ∀ l ∈ L, q ≤ l.price ∧ 0 < l.price ∧ 0 ≤ l.size)
    {n1 n2 : ℚ} (h : n1 ≤ n2) :
    q * (wfill n2 L - wfill n1 L) ≤ wcost n2 L - wcost n1 L := by
  induction L generalizing n1 n2 with
  | nil => simp [wfill_nil, wcost_nil]
  | cons l ls ih =>
    have hp := hL l (by simp)
    have hLs : ∀ x ∈ ls, q ≤ x.price ∧ 0 < x.price ∧ 0 ≤ x.size :=
      fun x hx => hL x (by simp [hx])
    by_cases h2 : n2 ≤ 0
    · have h1 : n1 ≤ 0 := le_trans h h2
      simp [wfill_nonpos h1, wfill_nonpos h2, wcost_nonpos h1, wcost_nonpos h2]
    · by_cases h1 : n1 ≤ 0
      · rw [wfill_nonpos h1, wcost_nonpos h1, wfill_cons h2, wcost_cons h2]
        have hf2 : 0 ≤ min n2 (l.price * l.size) :=
          le_min (le_of_not_le h2) (mul_nonneg hp.2.1.le hp.2.2)
        have hdiv : q * (min n2 (l.price * l.size) / l.price) ≤
            min n2 (l.price * l.size) := div_price_le hp.1 hp.2.1 hf2
        have tail := ih hLs (step_nonneg n2 (l.price * l.size))
        rw [wfill_nonpos le_rfl, wcost_nonpos le_rfl] at tail
        have e : q * (min n2 (l.price * l.size) / l.price +
            wfill (n2 - min n2 (l.price * l.size)) ls - 0) =
            q * (min n2 (l.price * l.size) / l.price) +
            q * (wfill (n2 - min n2 (l.price * l.size)) ls - 0) := by ring
        rw [e]
        linarith
      · rw [wfill_cons h1, wfill_cons h2, wcost_cons h1, wcost_cons h2]
        have hff : min n1 (l.price * l.size) ≤ min n2 (l.price * l.size) :=
          min_le_min h le_rfl
        have hdiv : q * ((min n2 (l.price * l.size) -
            min n1 (l.price * l.size)) / l.price) ≤
            min n2 (l.price * l.size) - min n1 (l.price * l.size) :=
          div_price_le hp.1 hp.2.1 (by linarith)
        have tail := ih hLs (step_mono (l.price * l.size) h)
        have e : q * (min n2 (l.price * l.size) / l.price +
            wfill (n2 - min n2 (l.price * l.size)) ls -
            (min n1 (l.price * l.size) / l.price +
              wfill (n1 - min n1 (l.price * l.size)) ls)) =
            q * ((min n2 (l.price * l.size) -
              min n1 (l.price * l.size)) / l.price) +
            q * (wfill (n2 - min n2 (l.price * l.size)) ls -
              wfill (n1 - min n1 (l.price * l.size)) ls) := by ring
        rw [e]
        linarith

theorem wfill_ceil (L : List Level) {q : ℚ}
    (hL : ∀ l ∈ L, l.price ≤ q ∧ 0 < l.price ∧ 0 ≤ l.size)
    {n1 n2 : ℚ} (h : n1 ≤ n2) :
    wcost n2 L - wcost n1 L ≤ q * (wfill n2 L - wfill n1 L) := by
  induction L generalizing n1 n2 with
  | nil => simp [wfill_nil, wcost_nil]
  | cons l ls ih =>
    have hp := hL l (by simp)
    have hLs : ∀ x ∈ ls, x.price ≤ q ∧ 0 < x.price ∧ 0 ≤ x.size :=
      fun x hx => hL x (by simp [hx])
    by_cases h2 : n2 ≤ 0
    · have h1 : n1 ≤ 0 := le_trans h h2
      simp [wfill_nonpos h1, wfill_nonpos h2, wcost_nonpos h1, wcost_nonpos h2]
    · by_cases h1 : n1 ≤ 0
      · rw [wfill_nonpos h1, wcost_nonpos h1, wfill_cons h2, wcost_cons h2]
        have hf2 : 0 ≤ min n2 (l.price * l.size) :=
          le_min (le_of_not_le h2) (mul_nonneg hp.2.1.le hp.2.2)
        have hdiv : min n2 (l.price * l.size) ≤
            q * (min n2 (l.price * l.size) / l.price) :=
          div_price_ge hp.1 hp.2.1 hf2
        have tail := ih hLs (step_nonneg n2 (l.price * l.size))
        rw [wfill_nonpos le_rfl, wcost_nonpos le_rfl] at tail
        have e : q * (min n2 (l.price * l.size) / l.price +
            wfill (n2 - min n2 (l.price * l.size)) ls - 0) =
            q * (min n2 (l.price * l.size) / l.price) +
            q * (wfill (n2 - min n2 (l.price * l.size)) ls - 0) := by ring
        rw [e]
        linarith
      · rw [wfill_cons h1, wfill_cons h2, wcost_cons h1, wcost_cons h2]
        have hff : min n1 (l.price * l.size) ≤ min n2 (l.price * l.size) :=
          min_le_min h le_rfl
        have hdiv : min n2 (l.price * l.size) - min n1 (l.price * l.size) ≤
            q * ((min n2 (l.price * l.size) -
              min n1 (l.price * l.size)) / l.price) :=
          div_price_ge hp.1 hp.2.1 (by linarith)
        have tail := ih hLs (step_mono (l.price * l.size) h)
        have e : q * (min n2 (l.price * l.size) / l.price +
            wfill (n2 - min n2 (l.price * l.size)) ls -
            (min n1 (l.price * l.size) / l.price +
              wfill (n1 - min n1 (l.price * l.size)) ls)) =
            q * ((min n2 (l.price * l.size) -
              min n1 (l.price * l.size)) / l.price) +
            q * (wfill (n2 - min n2 (l.price * l.size)) ls -
              wfill (n1 - min n1 (l.price * l.size)) ls) := by ring
        rw [e]
        linarith

theorem wcross_asc (L : List Level)
    (hL : ∀ l ∈ L, 0 < l.price ∧ 0 ≤ l.size)
    (hs : L.Pairwise (fun a b => a.price ≤ b.price))
    {n1 n2 : ℚ} (h : n1 ≤ n2) :
    wcost n1 L * wfill n2 L ≤ wcost n2 L * wfill n1 L := by
  induction L generalizing n1 n2 with
  | nil => simp [wcost_nil, wfill_nil]
  | cons l ls ih =>
    rcases List.pairwise_cons.mp hs with ⟨hall, hs2⟩
    have hp := hL l (by simp)
    have hp0 : l.price ≠ 0 := ne_of_gt hp.1
    have hLs : ∀ x ∈ ls, 0 < x.price ∧ 0 ≤ x.size :=
      fun x hx => hL x (by simp [hx])
    have hFloorLs : ∀ x ∈ ls, l.price ≤ x.price ∧ 0 < x.price ∧ 0 ≤ x.size :=
      fun x hx => ⟨hall x hx, (hLs x hx).1, (hLs x hx).2⟩
    by_cases h1 : n1 ≤ 0
    · rw [wcost_nonpos h1, wfill_nonpos h1]
      simp
    · have h2 : ¬ n2 ≤ 0 := fun hc => h1 (le_trans h hc)
      have hn1 : 0 < n1 := lt_of_not_le h1
      rw [wcost_cons h1, wcost_cons h2, wfill_cons h1, wfill_cons h2]
      have hx0 : 0 ≤ l.price * l.size := mul_nonneg hp.1.le hp.2
      have floor0 : l.price * wfill (n2 - min n2 (l.price * l.size)) ls ≤
          wcost (n2 - min n2 (l.price * l.size)) ls := by
        have t := wfill_floor ls hFloorLs (step_nonneg n2 (l.price * l.size))
        rw [wfill_nonpos le_rfl, wcost_nonpos le_rfl] at t
        linarith [mul_comm l.price
          (wfill (n2 - min n2 (l.price * l.size)) ls - 0)]
      rcases le_or_lt n1 (l.price * l.size) with hx | hx
      · have e1 : min n1 (l.price * l.size) = n1 := min_eq_left hx
        rw [e1, sub_self, wcost_nonpos le_rfl, wfill_nonpos le_rfl]
        have key : n1 * wfill (n2 - min n2 (l.price * l.size)) ls ≤
            wcost (n2 - min n2 (l.price * l.size)) ls * (n1 / l.price) := by
          have e : n1 * wfill (n2 - min n2 (l.price * l.size)) ls =
              (n1 / l.price) *
                (l.price * wfill (n2 - min n2 (l.price * l.size)) ls) := by
            field_simp
            ring
          rw [e]
          calc (n1 / l.price) *
              (l.price * wfill (n2 - min n2 (l.price * l.size)) ls) ≤
              (n1 / l.price) * wcost (n2 - min n2 (l.price * l.size)) ls :=
                mul_le_mul_of_nonneg_left floor0 (div_nonneg hn1.le hp.1.le)
            _ = wcost (n2 - min n2 (l.price * l.size)) ls * (n1 / l.price) :=
                mul_comm _ _
        have eL : (n1 + 0) * (min n2 (l.price * l.size) / l.price +
            wfill (n2 - min n2 (l.price * l.size)) ls) =
            n1 * (min n2 (l.price * l.size) / l.price) +
            n1 * wfill (n2 - min n2 (l.price * l.size)) ls := by ring
        have eR : (min n2 (l.price * l.size) +
            wcost (n2 - min n2 (l.price * l.size)) ls) * (n1 / l.price + 0) =
            n1 * (min n2 (l.price * l.size) / l.price) +
            wcost (n2 - min n2 (l.price * l.size)) ls * (n1 / l.price) := by
          field_simp
          ring
        rw [eL, eR]
        linarith
      · have e1 : min n1 (l.price * l.size) = l.price * l.size :=
          min_eq_right hx.le
        have e2 : min n2 (l.price * l.size) = l.price * l.size :=
          min_eq_right (le_trans hx.le h)
        rw [e1, e2]
        have tailf := wfill_floor ls hFloorLs
          (step_mono (l.price * l.size) h)
        rw [e1, e2] at tailf
        have tailc := ih hLs hs2 (step_mono (l.price * l.size) h)
        rw [e1, e2] at tailc
        have key : (l.price * l.size) *
            (wfill (n2 - l.price * l.size) ls -
              wfill (n1 - l.price * l.size) ls) ≤
            ((l.price * l.size) / l.price) *
              (wcost (n2 - l.price * l.size) ls -
                wcost (n1 - l.price * l.size) ls) := by
          have e : (l.price * l.size) *
              (wfill (n2 - l.price * l.size) ls -
                wfill (n1 - l.price * l.size) ls) =
              ((l.price * l.size) / l.price) *
                (l.price * (wfill (n2 - l.price * l.size) ls -
                  wfill (n1 - l.price * l.size) ls)) := by
            field_simp
            ring
          rw [e]
          exact mul_le_mul_of_nonneg_left tailf (div_nonneg hx0 hp.1.le)
        have eL : (l.price * l.size + wcost (n1 - l.price * l.size) ls) *
            ((l.price * l.size) / l.price +
              wfill (n2 - l.price * l.size) ls) =
            (l.price * l.size) * ((l.price * l.size) / l.price) +
            (l.price * l.size) * wfill (n2 - l.price * l.size) ls +
            wcost (n1 - l.price * l.size) ls *
              ((l.price * l.size) / l.price) +
            wcost (n1 - l.price * l.size) ls *
              wfill (n2 - l.price * l.size) ls := by ring
        have eR : (l.price * l.size + wcost (n2 - l.price * l.size) ls) *
            ((l.price * l.size) / l.price +
              wfill (n1 - l.price * l.size) ls) =
            (l.price * l.size) * ((l.price * l.size) / l.price) +
            (l.price * l.size) * wfill (n1 - l.price * l.size) ls +
            wcost (n2 - l.price * l.size) ls *
              ((l.price * l.size) / l.price) +
            wcost (n2 - l.price * l.size) ls *
              wfill (n1 - l.price * l.size) ls := by ring
        rw [eL, eR]
        have expand : (l.price * l.size) *
            wfill (n2 - l.price * l.size) ls -
            (l.price * l.size) * wfill (n1 - l.price * l.size) ls ≤
            ((l.price * l.size) / l.price) *
              wcost (n2 - l.price * l.size) ls -
            ((l.price * l.size) / l.price) *
              wcost (n1 - l.price * l.size) ls := by
          have e : (l.price * l.size) *
              (wfill (n2 - l.price * l.size) ls -
                wfill (n1 - l.price * l.size) ls) =
              (l.price * l.size) * wfill (n2 - l.price * l.size) ls -
              (l.price * l.size) * wfill (n1 - l.price * l.size) ls := by ring
          have e2 : ((l.price * l.size) / l.price) *
              (wcost (n2 - l.price * l.size) ls -
                wcost (n1 - l.price * l.size) ls) =
              ((l.price * l.size) / l.price) *
                wcost (n2 - l.price * l.size) ls -
              ((l.price * l.size) / l.price) *
                wcost (n1 - l.price * l.size) ls := by ring
          rw [e, e2] at key
          exact key
        linarith [mul_comm (wcost (n1 - l.price * l.size) ls)
            ((l.price * l.size) / l.price),
          mul_comm (wcost (n2 - l.price * l.size) ls)
            ((l.price * l.size) / l.price)]

theorem wcross_desc (L : List Level)
    (hL : ∀ l ∈ L, 0 < l.price ∧ 0 ≤ l.size)
    (hs : L.Pairwise (fun a b => b.price ≤ a.price))
    {n1 n2 : ℚ} (h : n1 ≤ n2) :
    wcost n2 L * wfill n1 L ≤ wcost n1 L * wfill n2 L := by
  induction L generalizing n1 n2 with
  | nil => simp [wcost_nil, wfill_nil]
  | cons l ls ih =>
    rcases List.pairwise_cons.mp hs with ⟨hall, hs2⟩
    have hp := hL l (by simp)
    have hp0 : l.price ≠ 0 := ne_of_gt hp.1
    have hLs : ∀ x ∈ ls, 0 < x.price ∧ 0 ≤ x.size :=
      fun x hx => hL x (by simp [hx])
    have hCeilLs : ∀ x ∈ ls, x.price ≤ l.price ∧ 0 < x.price ∧ 0 ≤ x.size :=
      fun x hx => ⟨hall x hx, (hLs x hx).1, (hLs x hx).2⟩
    by_cases h1 : n1 ≤ 0
    · rw [wcost_nonpos h1, wfill_nonpos h1]
      simp
    · have h2 : ¬ n2 ≤ 0 := fun hc => h1 (le_trans h hc)
      have hn1 : 0 < n1 := lt_of_not_le h1
      rw [wcost_cons h1, wcost_cons h2, wfill_cons h1, wfill_cons h2]
      have hx0 : 0 ≤ l.price * l.size := mul_nonneg hp.1.le hp.2
      have ceil0 : wcost (n2 - min n2 (l.price * l.size)) ls ≤
          l.price * wfill (n2 - min n2 (l.price * l.size)) ls := by
        have t := wfill_ceil ls hCeilLs (step_nonneg n2 (l.price * l.size))
        rw [wfill_nonpos le_rfl, wcost_nonpos le_rfl] at t
        linarith [mul_comm l.price
          (wfill (n2 - min n2 (l.price * l.size)) ls - 0)]
      rcases le_or_lt n1 (l.price * l.size) with hx | hx
      · have e1 : min n1 (l.price * l.size) = n1 := min_eq_left hx
        rw [e1, sub_self, wcost_nonpos le_rfl, wfill_nonpos le_rfl]
        have key : wcost (n2 - min n2 (l.price * l.size)) ls * (n1 / l.price) ≤
            n1 * wfill (n2 - min n2 (l.price * l.size)) ls := by
          have e : n1 * wfill (n2 - min n2 (l.price * l.size)) ls =
              (n1 / l.price) *
                (l.price * wfill (n2 - min n2 (l.price * l.size)) ls) := by
            field_simp
            ring
          rw [e]
          calc wcost (n2 - min n2 (l.price * l.size)) ls * (n1 / l.price) =
              (n1 / l.price) * wcost (n2 - min n2 (l.price * l.size)) ls :=
                mul_comm _ _
            _ ≤ (n1 / l.price) *
               (l.price * wfill (n2 - min n2 (l.price * l.size)) ls) :=
                mul_le_mul_of_nonneg_left ceil0 (div_nonneg hn1.le hp.1.le)
        have eL : (min n2 (l.price * l.size) +
            wcost (n2 - min n2 (l.price * l.size)) ls) * (n1 / l.price + 0) =
            n1 * (min n2 (l.price * l.size) / l.price) +
            wcost (n2 - min n2 (l.price * l.size)) ls * (n1 / l.price) := by
          field_simp
          ring
        have eR : (n1 + 0) * (min n2 (l.price * l.size) / l.price +
            wfill (n2 - min n2 (l.price * l.size)) ls) =
            n1 * (min n2 (l.price * l.size) / l.price) +
            n1 * wfill (n2 - min n2 (l.price * l.size)) ls := by ring
        rw [eL, eR]
        linarith
      · have e1 : min n1 (l.price * l.size) = l.price * l.size :=
          min_eq_right hx.le
        have e2 : min n2 (l.price * l.size) = l.price * l.size :=
          min_eq_right (le_trans hx.le h)
        rw [e1, e2]
        have tailf := wfill_ceil ls hCeilLs
          (step_mono (l.price * l.size) h)
        rw [e1, e2] at tailf
        have tailc := ih hLs hs2 (step_mono (l.price * l.size) h)
        rw [e1, e2] at tailc
        have key : ((l.price * l.size) / l.price) *
            (wcost (n2 - l.price * l.size) ls -
              wcost (n1 - l.price * l.size) ls) ≤
            (l.price * l.size) *
              (wfill (n2 - l.price * l.size) ls -
                wfill (n1 - l.price * l.size) ls) := by
          have e : (l.price * l.size) *
              (wfill (n2 - l.price * l.size) ls -
                wfill (n1 - l.price * l.size) ls) =
              ((l.price * l.size) / l.price) *
                (l.price * (wfill (n2 - l.price * l.size) ls -
                  wfill (n1 - l.price * l.size) ls)) := by
            field_simp
            ring
          rw [e]
          exact mul_le_mul_of_nonneg_left tailf (div_nonneg hx0 hp.1.le)
        have eL : (l.price * l.size + wcost (n2 - l.price * l.size) ls) *
            ((l.price * l.size) / l.price +
              wfill (n1 - l.price * l.size) ls) =
            (l.price * l.size) * ((l.price * l.size) / l.price) +
            (l.price * l.size) * wfill (n1 - l.price * l.size) ls +
            ((l.price * l.size) / l.price) *
              wcost (n2 - l.price * l.size) ls +
            wcost (n2 - l.price * l.size) ls *
              wfill (n1 - l.price * l.size) ls := by ring
        have eR : (l.price * l.size + wcost (n1 - l.price * l.size) ls) *
            ((l.price * l.size) / l.price +
              wfill (n2 - l.price * l.size) ls) =
            (l.price * l.size) * ((l.price * l.size) / l.price) +
            (l.price * l.size) * wfill (n2 - l.price * l.size) ls +
            ((l.price * l.size) / l.price) *
              wcost (n1 - l.price * l.size) ls +
            wcost (n1 - l.price * l.size) ls *
              wfill (n2 - l.price * l.size) ls := by ring
        rw [eL, eR]
        have e3 : ((l.price * l.size) / l.price) *
            (wcost (n2 - l.price * l.size) ls -
              wcost (n1 - l.price * l.size) ls) =
            ((l.price * l.size) / l.price) *
              wcost (n2 - l.price * l.size) ls -
            ((l.price * l.size) / l.price) *
              wcost (n1 - l.price * l.size) ls := by ring
        have e4 : (l.price * l.size) *
            (wfill (n2 - l.price * l.size) ls -
              wfill (n1 - l.price * l.size) ls) =
            (l.price * l.size) * wfill (n2 - l.price * l.size) ls -
            (l.price * l.size) * wfill (n1 - l.price * l.size) ls := by ring
        rw [e3, e4] at key
        linarith

theorem calculateSlippage_of_empty (ob : OrderBook) (n : ℚ) (side : String)
    (h : ob.bids = [] ∨ ob.asks = []) :
    calculateSlippage ob n side =
      { valid := false, midPrice := 0, avgPrice := 0, slippage := 0,
        slippageBps := 0, spread := 0, filled := 0, filledUsd := 0,
        levels := 0, partialFill := false, unfilledUsd := 0 } := by
  unfold calculateSlippage
  rcases h with h | h <;> simp [h]

theorem calculateSlippage_of_nonpos (ob : OrderBook) (n : ℚ) (side : String)
    (h : bestAsk ob ≤ 0 ∨ bestBid ob ≤ 0) :
    calculateSlippage ob n side =
      { valid := false, midPrice := 0, avgPrice := 0, slippage := 0,
        slippageBps := 0, spread := 0, filled := 0, filledUsd := 0,
        levels := 0, partialFill := false, unfilledUsd := 0 } := by
  unfold calculateSlippage
  split_ifs with g1 g2 g3
  · rfl
  · rfl
  all_goals
    exfalso
    simp only [Bool.or_eq_true, decide_eq_true_eq] at g2
    tauto

theorem calculateSlippage_of_zero (ob : OrderBook) (n : ℚ) (side : String)
    (hb : ob.bids ≠ []) (ha : ob.asks ≠ [])
    (hba : 0 < bestAsk ob) (hbb : 0 < bestBid ob)
    (hf : wfill n (slipLevels ob side) = 0) :
    calculateSlippage ob n side =
      { valid := false, midPrice := (bestBid ob + bestAsk ob) / 2,
        avgPrice := (bestBid ob + bestAsk ob) / 2, slippage := 0,
        slippageBps := 0, spread := 0, filled := 0, filledUsd := 0,
        levels := wlev n (slipLevels ob side), partialFill := false,
        unfilledUsd := 0 } := by
  unfold calculateSlippage
  split_ifs with g1 g2 g3
  · exfalso
    simp only [Bool.or_eq_true, List.isEmpty_iff] at g1
    tauto
  · exfalso
    simp only [Bool.or_eq_true, decide_eq_true_eq] at g2
    rcases g2 with g | g <;> linarith
  · rfl
  · exact absurd hf g3

theorem calculateSlippage_of_filled (ob : OrderBook) (n : ℚ) (side : String)
    (hb : ob.bids ≠ []) (ha : ob.asks ≠ [])
    (hba : 0 < bestAsk ob) (hbb : 0 < bestBid ob)
    (hf : wfill n (slipLevels ob side) ≠ 0) :
    calculateSlippage ob n side =
      { valid := true, midPrice := (bestBid ob + bestAsk ob) / 2,
        avgPrice := wcost n (slipLevels ob side) /
          wfill n (slipLevels ob side),
        slippage := |(wcost n (slipLevels ob side) /
            wfill n (slipLevels ob side) -
            (bestBid ob + bestAsk ob) / 2) /
          ((bestBid ob + bestAsk ob) / 2) * 100|,
        slippageBps := |(wcost n (slipLevels ob side) /
            wfill n (slipLevels ob side) -
            (bestBid ob + bestAsk ob) / 2) /
          ((bestBid ob + bestAsk ob) / 2) * 100| * 100,
        spread := (bestAsk ob - bestBid ob) /
          ((bestBid ob + bestAsk ob) / 2) * 100,
        filled := wfill n (slipLevels ob side),
        filledUsd := wcost n (slipLevels ob side),
        levels := wlev n (slipLevels ob side),
        partialFill := decide (0 < wrem n (slipLevels ob side)),
        unfilledUsd := wrem n (slipLevels ob side) } := by
  unfold calculateSlippage
  split_ifs with g1 g2 g3
  · exfalso
    simp only [Bool.or_eq_true, List.isEmpty_iff] at g1
    tauto
  · exfalso
    simp only [Bool.or_eq_true, decide_eq_true_eq] at g2
    rcases g2 with g | g <;> linarith
  · exact absurd g3 hf
  · rfl

theorem calcSlippage_of_empty (ob : OrderBook) (n : ℚ) (side : String)
    (h : ob.bids = [] ∨ ob.asks = []) :
    calcSlippage ob n side =
      { valid := false, midPrice := 0, avgPrice := 0, slippage := 0,
        slippageBps := 0, levels := 0, filledUsd := 0 } := by
  unfold calcSlippage
  rcases h with h | h <;> simp [h]

theorem calcSlippage_of_nonpos (ob : OrderBook) (n : ℚ) (side : String)
    (h : bestAsk ob ≤ 0 ∨ bestBid ob ≤ 0) :
    calcSlippage ob n side =
      { valid := false, midPrice := 0, avgPrice := 0, slippage := 0,
        slippageBps := 0, levels := 0, filledUsd := 0 } := by
  unfold calcSlippage
  split_ifs with g1 g2 g3
  · rfl
  · rfl
  all_goals
    exfalso
    simp only [Bool.or_eq_true, decide_eq_true_eq] at g2
    tauto

theorem calcSlippage_of_zero (ob : OrderBook) (n : ℚ) (side : String)
    (hf : wfill n (slipLevels ob side) = 0) :
    calcSlippage ob n side =
      { valid := false, midPrice := 0, avgPrice := 0, slippage := 0,
        slippageBps := 0, levels := 0, filledUsd := 0 } := by
  unfold calcSlippage
  split_ifs with g1 g2 g3
  · rfl
  · rfl
  · rfl
  · exact absurd hf g3

theorem calcSlippage_of_filled (ob : OrderBook) (n : ℚ) (side : String)
    (hb : ob.bids ≠ []) (ha : ob.asks ≠ [])
    (hba : 0 < bestAsk ob) (hbb : 0 < bestBid ob)
    (hf : wfill n (slipLevels ob side) ≠ 0) :
    calcSlippage ob n side =
      { valid := true, midPrice := (bestBid ob + bestAsk ob) / 2,
        avgPrice := wcost n (slipLevels ob side) /
          wfill n (slipLevels ob side),
        slippage := |(wcost n (slipLevels ob side) /
            wfill n (slipLevels ob side) -
            (bestBid ob + bestAsk ob) / 2) /
          ((bestBid ob + bestAsk ob) / 2) * 100|,
        slippageBps := |(wcost n (slipLevels ob side) /
            wfill n (slipLevels ob side) -
            (bestBid ob + bestAsk ob) / 2) /
          ((bestBid ob + bestAsk ob) / 2) * 100| * 100,
        levels := wlev n (slipLevels ob side),
        filledUsd := wcost n (slipLevels ob side) } := by
  unfold calcSlippage
  split_ifs with g1 g2 g3
  · exfalso
    simp only [Bool.or_eq_true, List.isEmpty_iff] at g1
    tauto
  · exfalso
    simp only [Bool.or_eq_true, decide_eq_true_eq] at g2
    rcases g2 with g | g <;> linarith
  · exact absurd g3 hf
  · rfl

theorem insertSlip_head (x : String × ℚ) (s : List (String × ℚ)) :
    (insertSlip x s).head? =
      match s.head? with
      | none => some x
      | some y => if y.2 < x.2 then some y else some x := by
  cases s with
  | nil => rfl
  | cons y ys =>
    by_cases h : y.2 < x.2 <;> simp [insertSlip, h]

theorem sortBySlip_head (l : List (String × ℚ)) :
    (sortBySlip l).head? = specWinner l := by
  induction l with
  | nil => rfl
  | cons x t ih =>
    have e : sortBySlip (x :: t) = insertSlip x (sortBySlip t) := rfl
    rw [e, insertSlip_head, ih]
    cases h : specWinner t <;> simp [specWinner, h]

theorem specWinner_eq_none (l : List (String × ℚ)) :
    specWinner l = none ↔ l = [] := by
  cases l with
  | nil => simp [specWinner]
  | cons x t =>
    simp only [specWinner]
    cases h : specWinner t with
    | none => simp
    | some b => by_cases hb : b.2 < x.2 <;> simp [hb]

theorem specWinner_min (l : List (String × ℚ)) {m : String × ℚ}
    (h : specWinner l = some m) :
    ∃ i : ℕ, l[i]? = some m ∧ (∀ p ∈ l, m.2 ≤ p.2) ∧
      (∀ j : ℕ, ∀ p : String × ℚ, j < i → l[j]? = some p → m.2 < p.2) := by
  induction l generalizing m with
  | nil => simp [specWinner] at h
  | cons x t ih =>
    rw [specWinner] at h
    cases ht : specWinner t with
    | none =>
      rw [ht] at h
      have hmx : x = m := by simpa using h
      subst hmx
      have hte : t = [] := (specWinner_eq_none t).mp ht
      subst hte
      refine ⟨0, by simp, ?_, ?_⟩
      · intro p hp
        have : p = x := by simpa using hp
        rw [this]
      · intro j p hj hg
        omega
    | some b =>
      rw [ht] at h
      obtain ⟨i, hget, hmin, hfirst⟩ := ih ht
      have h2 : (if b.2 < x.2 then some b else some x) = some m := h
      by_cases hb : b.2 < x.2
      · rw [if_pos hb] at h2
        have hmb : b = m := by simpa using h2
        subst hmb
        refine ⟨i + 1, by simpa using hget, ?_, ?_⟩
        · intro p hp
          rcases List.mem_cons.mp hp with hp | hp
          · rw [hp]
            exact hb.le
          · exact hmin p hp
        · intro j p hj hg
          cases j with
          | zero =>
            have : x = p := by simpa using hg
            rw [← this]
            exact hb
          | succ j2 =>
            simp only [List.getElem?_cons_succ] at hg
            exact hfirst j2 p (by omega) hg
      · rw [if_neg hb] at h2
        have hmx : x = m := by simpa using h2
        subst hmx
        refine ⟨0, by simp, ?_, ?_⟩
        · intro p hp
          rcases List.mem_cons.mp hp with hp | hp
          · rw [hp]
          · exact le_trans (not_lt.mp hb) (hmin p hp)
        · intro j p hj hg
          omega

theorem collectWinner_eq_specWinner (hl lt asr bn : FillResult) :
    collectWinner hl lt asr bn =
      (specWinner (validResults hl lt asr bn)).map Prod.fst := by
  unfold collectWinner
  rw [sortBySlip_head]

theorem sheetsWinner_eq_specWinner (hl lt asr bn : SlipResult) :
    sheetsWinner hl lt asr bn =
      match specWinner (sheetsValidResults hl lt asr bn) with
      | some p => some p.1
      | none => some "N/A" := by
  unfold sheetsWinner
  rw [sortBySlip_head]

/-- C1 counterexample: `crossedBook` has non-empty bids and asks, positive
best prices, and best bid (101) at or above best ask (100) — a crossed
book — yet both estimators return `valid = true` for a 50-notional buy,
contradicting the claim that a crossed book yields `valid = false`. -/
theorem C1_counterexample :
    crossedBook.bids ≠ [] ∧ crossedBook.asks ≠ [] ∧
    0 < bestBid crossedBook ∧ 0 < bestAsk crossedBook ∧
    bestAsk crossedBook ≤ bestBid crossedBook ∧
    (calculateSlippage crossedBook 50 ("buy")).valid = true ∧
    (calcSlippage crossedBook 50 ("buy")).valid = true := by
  refine ⟨by simp [crossedBook], by simp [crossedBook],
    by norm_num [bestBid, crossedBook],
    by norm_num [bestAsk, crossedBook],
    by norm_num [bestBid, bestAsk, crossedBook], ?_, ?_⟩ <;>
  norm_num [calculateSlippage, calcSlippage, walk, slipLevels, bestBid,
    bestAsk, crossedBook, min_def]

/-- C1 (amended): the estimators return `valid = false` exactly when a side
is empty, a best price is non-positive, or the ladder walk fills zero
base quantity; there is no crossed-book check, so a crossed book with
positive best prices is processed like any other. -/
theorem C1_valid_iff (ob : OrderBook) (n : ℚ) (side : String) :
    ((calculateSlippage ob n side).valid = false ↔
      (ob.bids = [] ∨ ob.asks = [] ∨ bestAsk ob ≤ 0 ∨ bestBid ob ≤ 0 ∨
        wfill n (slipLevels ob side) = 0)) ∧
    ((calcSlippage ob n side).valid = false ↔
      (ob.bids = [] ∨ ob.asks = [] ∨ bestAsk ob ≤ 0 ∨ bestBid ob ≤ 0 ∨
        wfill n (slipLevels ob side) = 0)) := by
  constructor
  · unfold calculateSlippage
    split_ifs with g1 g2 g3
    · simp only [Bool.or_eq_true, List.isEmpty_iff] at g1
      simp only [show (false = false) = True from by simp, true_iff]
      tauto
    · simp only [Bool.or_eq_true, decide_eq_true_eq] at g2
      simp only [show (false = false) = True from by simp, true_iff]
      tauto
    · simp only [show (false = false) = True from by simp, true_iff]
      exact Or.inr (Or.inr (Or.inr (Or.inr g3)))
    · simp only [Bool.or_eq_true, List.isEmpty_iff, not_or] at g1
      simp only [Bool.or_eq_true, decide_eq_true_eq, not_or] at g2
      simp only [show (true = false) = False from by simp, false_iff, not_or]
      push_neg
      exact ⟨g1.1, g1.2, lt_of_not_le g2.1, lt_of_not_le g2.2, g3⟩
  · unfold calcSlippage
    split_ifs with g1 g2 g3
    · simp only [Bool.or_eq_true, List.isEmpty_iff] at g1
      simp only [show (false = false) = True from by simp, true_iff]
      tauto
    · simp only [Bool.or_eq_true, decide_eq_true_eq] at g2
      simp only [show (false = false) = True from by simp, true_iff]
      tauto
    · simp only [show (false = false) = True from by simp, true_iff]
      exact Or.inr (Or.inr (Or.inr (Or.inr g3)))
    · simp only [Bool.or_eq_true, List.isEmpty_iff, not_or] at g1
      simp only [Bool.or_eq_true, decide_eq_true_eq, not_or] at g2
      simp only [show (true = false) = False from by simp, false_iff, not_or]
      push_neg
      exact ⟨g1.1, g1.2, lt_of_not_le g2.1, lt_of_not_le g2.2, g3⟩

/-- C9: on a book with non-empty sides and positive best prices, a
non-positive notional makes the loop break before consuming any level:
nothing is filled, no level is counted, and the zero-base-filled branch
returns an invalid result (in both estimator variants). -/
theorem C9_nonpos_notional (ob : OrderBook) (n : ℚ) (side : String)
    (hb : ob.bids ≠ []) (ha : ob.asks ≠ [])
    (hbb : 0 < bestBid ob) (hba : 0 < bestAsk ob) (hn : n ≤ 0) :
    (calculateSlippage ob n side).valid = false ∧
    (calculateSlippage ob n side).levels = 0 ∧
    (calculateSlippage ob n side).filled = 0 ∧
    (calcSlippage ob n side).valid = false ∧
    wfill n (slipLevels ob side) = 0 ∧ wlev n (slipLevels ob side) = 0 := by
  have hf : wfill n (slipLevels ob side) = 0 := wfill_nonpos hn _
  have hl : wlev n (slipLevels ob side) = 0 := wlev_nonpos hn _
  rw [calculateSlippage_of_zero ob n side hb ha hba hbb hf,
    calcSlippage_of_zero ob n side hf]
  exact ⟨rfl, hl, rfl, rfl, hf, hl⟩

/-- C9 witness: the theorem applied to `bookSimple` with notional -5. -/
theorem C9_witness :
    (calculateSlippage bookSimple (-5) ("buy")).valid = false ∧
    (calculateSlippage bookSimple (-5) ("buy")).levels = 0 ∧
    (calculateSlippage bookSimple (-5) ("buy")).filled = 0 ∧
    (calcSlippage bookSimple (-5) ("buy")).valid = false ∧
    wfill (-5) (slipLevels bookSimple ("buy")) = 0 ∧
    wlev (-5) (slipLevels bookSimple ("buy")) = 0 :=
  C9_nonpos_notional bookSimple (-5) ("buy")
    (by simp [bookSimple]) (by simp [bookSimple])
    (by norm_num [bestBid, bookSimple]) (by norm_num [bestAsk, bookSimple])
    (by norm_num)

/-- C10: the estimators compare `side` only against the exact string
`'buy'`; any other side value selects the bid ladder and produces a result
identical to `side = 'sell'`. -/
theorem C10_side_defaults_to_sell (ob : OrderBook) (n : ℚ) (side : String)
    (h : side ≠ "buy") :
    calculateSlippage ob n side = calculateSlippage ob n ("sell") ∧
    calcSlippage ob n side = calcSlippage ob n ("sell") ∧
    slipLevels ob side = ob.bids := by
  have e1 : slipLevels ob side = ob.bids := by
    rw [slipLevels, if_neg h]
  have e2 : slipLevels ob ("sell") = ob.bids := by
    rw [slipLevels, if_neg (by decide)]
  refine ⟨?_, ?_, e1⟩
  · unfold calculateSlippage
    rw [e1, e2]
  · unfold calcSlippage
    rw [e1, e2]

/-- C10 witness: the theorem applied at side `'hold'`. -/
theorem C10_witness :
    calculateSlippage bookSimple 7 ("hold") =
      calculateSlippage bookSimple 7 ("sell") ∧
    calcSlippage bookSimple 7 ("hold") = calcSlippage bookSimple 7 ("sell") ∧
    slipLevels bookSimple ("hold") = bookSimple.bids :=
  C10_side_defaults_to_sell bookSimple 7 ("hold") (by decide)

theorem specLadderWalk_zero (c b : ℚ) (k : ℕ) (L : List Level) :
    specLadderWalk 0 c b k L = ⟨0, c, b, k⟩ := by
  cases L with
  | nil => rfl
  | cons l ls => rw [specLadderWalk, if_pos rfl]

theorem walk_eq_specLadderWalk (L : List Level)
    (hL : ∀ l ∈ L, 0 < l.price ∧ 0 < l.size) :
    ∀ {n : ℚ}, 0 < n → ∀ (c b : ℚ) (k : ℕ),
      walk n c b k L = specLadderWalk n c b k L := by
  induction L with
  | nil =>
    intro n _ c b k
    rfl
  | cons l ls ih =>
    intro n hn c b k
    have hp := hL l (by simp)
    have hx : 0 < l.price * l.size := mul_pos hp.1 hp.2
    rw [walk_cons, specLadderWalk, if_neg (not_le.mpr hn),
      if_neg (ne_of_gt hn)]
    have hn' : 0 ≤ n - min n (l.price * l.size) := step_nonneg n _
    rcases eq_or_lt_of_le hn' with heq | hlt
    · rw [← heq, walk_nonpos le_rfl, specLadderWalk_zero]
    · exact ih (fun x hx2 => hL x (by simp [hx2])) hlt _ _ _

/-- C3: for a positive notional on a ladder of positive price levels, the
implemented fill loop (`walk`) computes exactly the reference fold of the
spec (`specLadderWalk`): same per-level consumption, accumulation, level
count, and stopping condition; and the estimators select the ask ladder
for a buy and the bid ladder for a sell. -/
theorem C3_walk_refines_spec (ob : OrderBook) (n : ℚ) (side : String)
    (hn : 0 < n)
    (hL : ∀ l ∈ slipLevels ob side, 0 < l.price ∧ 0 < l.size) :
    slipLevels ob ("buy") = ob.asks ∧
    slipLevels ob ("sell") = ob.bids ∧
    walk n 0 0 0 (slipLevels ob side) =
      specLadderWalk n 0 0 0 (slipLevels ob side) := by
  refine ⟨by rw [slipLevels, if_pos rfl],
    by rw [slipLevels, if_neg (by decide)], ?_⟩
  exact walk_eq_specLadderWalk (slipLevels ob side) hL hn 0 0 0

/-- C3 witness: the theorem applied to `bookSimple` with notional 50 on the
buy side. -/
theorem C3_witness :
    slipLevels bookSimple ("buy") = bookSimple.asks ∧
    slipLevels bookSimple ("sell") = bookSimple.bids ∧
    walk 50 0 0 0 (slipLevels bookSimple ("buy")) =
      specLadderWalk 50 0 0 0 (slipLevels bookSimple ("buy")) :=
  C3_walk_refines_spec bookSimple 50 ("buy") (by norm_num)
    (by
      intro l hl
      rw [slipLevels, if_pos rfl] at hl
      simp only [bookSimple] at hl
      simp only [List.mem_singleton] at hl
      rw [hl]
      norm_num)

theorem calculateSlippage_valid_parts (ob : OrderBook) (n : ℚ) (side : String)
    (hv : (calculateSlippage ob n side).valid = true) :
    ob.bids ≠ [] ∧ ob.asks ≠ [] ∧ 0 < bestAsk ob ∧ 0 < bestBid ob ∧
      wfill n (slipLevels ob side) ≠ 0 := by
  unfold calculateSlippage at hv
  split_ifs at hv with g1 g2 g3
  all_goals simp at hv
  simp only [Bool.or_eq_true, List.isEmpty_iff, not_or] at g1
  simp only [Bool.or_eq_true, decide_eq_true_eq, not_or] at g2
  exact ⟨g1.1, g1.2, lt_of_not_le g2.1, lt_of_not_le g2.2, g3⟩

/-- C4 counterexample: the claim quantifies over every notional, but for a
negative notional the loop breaks immediately with `totalCost = 0`, which
exceeds the (negative) requested notional. -/
theorem C4_counterexample :
    ¬ (wcost (-5) (slipLevels bookSimple ("buy")) ≤ -5) := by
  rw [wcost_nonpos (by norm_num)]
  norm_num

/-- C4 (amended): for every book, side, and nonnegative notional the walk's
total cost never exceeds the notional; and for every valid result,
`filled * avgPrice = filledUsd` holds exactly over the rational
embedding. -/
theorem C4_conservation (ob : OrderBook) (n : ℚ) (side : String) :
    (0 ≤ n → wcost n (slipLevels ob side) ≤ n) ∧
    ((calculateSlippage ob n side).valid = true →
      (calculateSlippage ob n side).filled *
        (calculateSlippage ob n side).avgPrice =
      (calculateSlippage ob n side).filledUsd) := by
  constructor
  · intro hn
    exact wcost_le _ hn
  · intro hv
    obtain ⟨hb, ha, hba, hbb, hf⟩ := calculateSlippage_valid_parts ob n side hv
    rw [calculateSlippage_of_filled ob n side hb ha hba hbb hf]
    simp only
    rw [mul_comm, div_mul_cancel₀ _ hf]

/-- C4 witness: the amended theorem applied to `bookSimple` with notional
50 on the buy side, with both hypotheses discharged. -/
theorem C4_witness :
    wcost 50 (slipLevels bookSimple ("buy")) ≤ 50 ∧
    (calculateSlippage bookSimple 50 ("buy")).filled *
      (calculateSlippage bookSimple 50 ("buy")).avgPrice =
    (calculateSlippage bookSimple 50 ("buy")).filledUsd := by
  have h := C4_conservation bookSimple 50 ("buy")
  refine ⟨h.1 (by norm_num), h.2 ?_⟩
  norm_num [calculateSlippage, walk, slipLevels, bestBid, bestAsk,
    bookSimple, min_def]

/-- C6: for every fill the estimator marks valid, the reported fields
satisfy the spec's formulas exactly: midPrice is the best-bid/best-ask
average, slippage is the absolute relative deviation of the average
execution price from mid times 100, slippageBps is slippage times 100,
and avgPrice is filledUsd / filled.  The same holds for the server
variant `calcSlippage`. -/
theorem C6_slippage_formulas (ob : OrderBook) (n : ℚ) (side : String)
    (hv : (calculateSlippage ob n side).valid = true) :
    ((calculateSlippage ob n side).midPrice =
        (bestBid ob + bestAsk ob) / 2 ∧
      (calculateSlippage ob n side).slippage =
        |(calculateSlippage ob n side).avgPrice -
            (calculateSlippage ob n side).midPrice| /
          (calculateSlippage ob n side).midPrice * 100 ∧
      (calculateSlippage ob n side).slippageBps =
        (calculateSlippage ob n side).slippage * 100 ∧
      (calculateSlippage ob n side).avgPrice =
        (calculateSlippage ob n side).filledUsd /
          (calculateSlippage ob n side).filled) ∧
    ((calcSlippage ob n side).midPrice = (bestBid ob + bestAsk ob) / 2 ∧
      (calcSlippage ob n side).slippage =
        |(calcSlippage ob n side).avgPrice -
            (calcSlippage ob n side).midPrice| /
          (calcSlippage ob n side).midPrice * 100 ∧
      (calcSlippage ob n side).slippageBps =
        (calcSlippage ob n side).slippage * 100) := by
  obtain ⟨hb, ha, hba, hbb, hf⟩ := calculateSlippage_valid_parts ob n side hv
  have hm : 0 < (bestBid ob + bestAsk ob) / 2 := by linarith
  have habs : ∀ A : ℚ,
      |(A - (bestBid ob + bestAsk ob) / 2) /
          ((bestBid ob + bestAsk ob) / 2) * 100| =
        |A - (bestBid ob + bestAsk ob) / 2| /
          ((bestBid ob + bestAsk ob) / 2) * 100 := by
    intro A
    rw [abs_mul, abs_div, abs_of_pos hm, abs_of_pos (by norm_num : (0:ℚ) < 100)]
  rw [calculateSlippage_of_filled ob n side hb ha hba hbb hf,
    calcSlippage_of_filled ob n side hb ha hba hbb hf]
  exact ⟨⟨rfl, habs _, rfl, rfl⟩, rfl, habs _, rfl⟩

/-- C6 witness: the theorem applied to `bookSimple` with notional 50 on
the buy side, where the result is valid. -/
theorem C6_witness :
    ((calculateSlippage bookSimple 50 ("buy")).midPrice =
        (bestBid bookSimple + bestAsk bookSimple) / 2 ∧
      (calculateSlippage bookSimple 50 ("buy")).slippage =
        |(calculateSlippage bookSimple 50 ("buy")).avgPrice -
            (calculateSlippage bookSimple 50 ("buy")).midPrice| /
          (calculateSlippage bookSimple 50 ("buy")).midPrice * 100 ∧
      (calculateSlippage bookSimple 50 ("buy")).slippageBps =
        (calculateSlippage bookSimple 50 ("buy")).slippage * 100 ∧
      (calculateSlippage bookSimple 50 ("buy")).avgPrice =
        (calculateSlippage bookSimple 50 ("buy")).filledUsd /
          (calculateSlippage bookSimple 50 ("buy")).filled) ∧
    ((calcSlippage bookSimple 50 ("buy")).midPrice =
        (bestBid bookSimple + bestAsk bookSimple) / 2 ∧
      (calcSlippage bookSimple 50 ("buy")).slippage =
        |(calcSlippage bookSimple 50 ("buy")).avgPrice -
            (calcSlippage bookSimple 50 ("buy")).midPrice| /
          (calcSlippage bookSimple 50 ("buy")).midPrice * 100 ∧
      (calcSlippage bookSimple 50 ("buy")).slippageBps =
        (calcSlippage bookSimple 50 ("buy")).slippage * 100) :=
  C6_slippage_formulas bookSimple 50 ("buy")
    (by norm_num [calculateSlippage, walk, slipLevels, bestBid, bestAsk,
      bookSimple, min_def])

theorem walkGuarded_of_prices (L : List Level)
    (hL : ∀ l ∈ L, l.price ≠ 0) (n : ℚ) : walkGuarded n L = true := by
  induction L generalizing n with
  | nil => rfl
  | cons l ls ih =>
    rw [walkGuarded]
    split_ifs with h
    · rfl
    · rw [Bool.and_eq_true, decide_eq_true_eq]
      exact ⟨hL l (by simp), ih (fun x hx => hL x (by simp [hx])) _⟩

/-- C7 counterexample: `zeroPriceBook` has positive best prices, but its
ask ladder holds a zero-price level below the top; the walk consumes it,
executing the unguarded division `fillUsd / level.price` with a zero
denominator (`0 / 0`, NaN in the floating-point source), and still
returns `valid = true`. -/
theorem C7_counterexample :
    walkGuarded 200 (slipLevels zeroPriceBook ("buy")) = false ∧
    (calculateSlippage zeroPriceBook 200 ("buy")).valid = true := by
  constructor
  · norm_num [walkGuarded, slipLevels, zeroPriceBook, min_def]
  · norm_num [calculateSlippage, walk, slipLevels, bestBid, bestAsk,
      zeroPriceBook, min_def]

/-- C7 (amended): the two final divisions are guarded — a valid result
always has a positive midPrice and a nonzero filled base, and the
mid-price-zero and zero-base-filled cases are mapped to `valid = false` —
but the per-level division `fillUsd / level.price` is not guarded: it is
only safe when every price on the walked ladder is nonzero. -/
theorem C7_division_guards (ob : OrderBook) (n : ℚ) (side : String) :
    ((calculateSlippage ob n side).valid = true →
      0 < (calculateSlippage ob n side).midPrice ∧
      (calculateSlippage ob n side).filled ≠ 0) ∧
    ((ob.bids ≠ [] ∧ ob.asks ≠ [] ∧ 0 < bestAsk ob ∧ 0 < bestBid ob ∧
        wfill n (slipLevels ob side) = 0) →
      (calculateSlippage ob n side).valid = false) ∧
    ((∀ l ∈ slipLevels ob side, l.price ≠ 0) →
      walkGuarded n (slipLevels ob side) = true) := by
  refine ⟨?_, ?_, fun h => walkGuarded_of_prices _ h n⟩
  · intro hv
    obtain ⟨hb, ha, hba, hbb, hf⟩ := calculateSlippage_valid_parts ob n side hv
    rw [calculateSlippage_of_filled ob n side hb ha hba hbb hf]
    exact ⟨by simp only; linarith, hf⟩
  · intro ⟨hb, ha, hba, hbb, hf⟩
    rw [calculateSlippage_of_zero ob n side hb ha hba hbb hf]

/-- C7 witness: the amended theorem applied to `bookSimple` with notional
50 on the buy side. -/
theorem C7_witness :
    (0 < (calculateSlippage bookSimple 50 ("buy")).midPrice ∧
      (calculateSlippage bookSimple 50 ("buy")).filled ≠ 0) ∧
    walkGuarded 50 (slipLevels bookSimple ("buy")) = true := by
  have h := C7_division_guards bookSimple 50 ("buy")
  refine ⟨h.1 ?_, h.2.2 ?_⟩
  · norm_num [calculateSlippage, walk, slipLevels, bestBid, bestAsk,
      bookSimple, min_def]
  · intro l hl
    rw [slipLevels, if_pos rfl] at hl
    simp only [bookSimple, List.mem_singleton] at hl
    rw [hl]
    norm_num

theorem totalCap_nil : totalCap [] = 0 := rfl

theorem totalCap_cons (l : Level) (ls : List Level) :
    totalCap (l :: ls) = l.price * l.size + totalCap ls := by
  simp [totalCap]

theorem sizeSum_cons (l : Level) (ls : List Level) :
    sizeSum (l :: ls) = l.size + sizeSum ls := by
  simp [sizeSum]

theorem totalCap_nonneg (L : List Level)
    (hL : ∀ l ∈ L, 0 ≤ l.price * l.size) : 0 ≤ totalCap L := by
  induction L with
  | nil => simp [totalCap_nil]
  | cons l ls ih =>
    rw [totalCap_cons]
    have := ih (fun x hx => hL x (by simp [hx]))
    have := hL l (by simp)
    linarith

theorem sizeSum_pos (L : List Level) (hne : L ≠ [])
    (hL : ∀ l ∈ L, 0 < l.size) : 0 < sizeSum L := by
  induction L with
  | nil => exact absurd rfl hne
  | cons l ls ih =>
    rw [sizeSum_cons]
    rcases eq_or_ne ls [] with h | h
    · subst h
      have := hL l (by simp)
      simp [sizeSum]
      linarith
    · have h1 := ih h (fun x hx => hL x (by simp [hx]))
      have h2 := hL l (by simp)
      linarith

theorem walk_exhaust (L : List Level)
    (hL : ∀ l ∈ L, 0 < l.price ∧ 0 < l.size) :
    ∀ {n : ℚ}, totalCap L < n →
      wrem n L = n - totalCap L ∧ wcost n L = totalCap L ∧
      wfill n L = sizeSum L ∧ wlev n L = L.length := by
  induction L with
  | nil =>
    intro n _
    simp [wrem_nil, wcost_nil, wfill_nil, wlev_nil, totalCap, sizeSum]
  | cons l ls ih =>
    intro n h
    have hp := hL l (by simp)
    have hLs : ∀ x ∈ ls, 0 < x.price ∧ 0 < x.size :=
      fun x hx => hL x (by simp [hx])
    have hcap : 0 ≤ totalCap ls :=
      totalCap_nonneg ls
        (fun x hx => mul_nonneg (hLs x hx).1.le (hLs x hx).2.le)
    have hx : 0 < l.price * l.size := mul_pos hp.1 hp.2
    rw [totalCap_cons] at h
    have hn : 0 < n := by linarith
    have hmin : min n (l.price * l.size) = l.price * l.size :=
      min_eq_right (by linarith)
    have htail : totalCap ls < n - l.price * l.size := by linarith
    obtain ⟨e1, e2, e3, e4⟩ := ih hLs htail
    rw [wrem_cons (not_le.mpr hn), wcost_cons (not_le.mpr hn),
      wfill_cons (not_le.mpr hn), wlev_cons (not_le.mpr hn), hmin]
    refine ⟨?_, ?_, ?_, ?_⟩
    · rw [e1, totalCap_cons]
      ring
    · rw [e2, totalCap_cons]
    · rw [e3, sizeSum_cons]
      rw [mul_div_cancel_left₀ l.size (ne_of_gt hp.1)]
    · rw [e4]
      simp

/-- C8: when the notional strictly exceeds the total quote liquidity
(sum of price * size) of the walked ladder of a valid book with positive
levels, the estimator marks the fill valid and partial, reports
`unfilledUsd` equal to the positive remaining notional, and counts the
full ladder length in `levels`. -/
theorem C8_partial_fill (ob : OrderBook) (n : ℚ) (side : String)
    (hb : ob.bids ≠ []) (ha : ob.asks ≠ [])
    (hba : 0 < bestAsk ob) (hbb : 0 < bestBid ob)
    (hL : ∀ l ∈ slipLevels ob side, 0 < l.price ∧ 0 < l.size)
    (hn : totalCap (slipLevels ob side) < n) :
    (calculateSlippage ob n side).valid = true ∧
    (calculateSlippage ob n side).partialFill = true ∧
    (calculateSlippage ob n side).unfilledUsd =
      n - totalCap (slipLevels ob side) ∧
    0 < (calculateSlippage ob n side).unfilledUsd ∧
    (calculateSlippage ob n side).levels = (slipLevels ob side).length := by
  have hne : slipLevels ob side ≠ [] := by
    rw [slipLevels]
    split_ifs <;> assumption
  obtain ⟨e1, e2, e3, e4⟩ := walk_exhaust (slipLevels ob side) hL hn
  have hz : 0 < sizeSum (slipLevels ob side) :=
    sizeSum_pos _ hne (fun x hx => (hL x hx).2)
  have hf : wfill n (slipLevels ob side) ≠ 0 := by
    rw [e3]
    exact ne_of_gt hz
  rw [calculateSlippage_of_filled ob n side hb ha hba hbb hf]
  refine ⟨rfl, ?_, ?_, ?_, ?_⟩
  · simp only [decide_eq_true_eq]
    show 0 < wrem n (slipLevels ob side)
    rw [e1]
    linarith
  · exact e1
  · show 0 < wrem n (slipLevels ob side)
    rw [e1]
    linarith
  · exact e4

/-- C8 witness: the theorem applied to `bookSimple` with notional 200,
which exceeds the 101 of total ask-side liquidity. -/
theorem C8_witness :
    (calculateSlippage bookSimple 200 ("buy")).valid = true ∧
    (calculateSlippage bookSimple 200 ("buy")).partialFill = true ∧
    (calculateSlippage bookSimple 200 ("buy")).unfilledUsd =
      200 - totalCap (slipLevels bookSimple ("buy")) ∧
    0 < (calculateSlippage bookSimple 200 ("buy")).unfilledUsd ∧
    (calculateSlippage bookSimple 200 ("buy")).levels =
      (slipLevels bookSimple ("buy")).length :=
  C8_partial_fill bookSimple 200 ("buy")
    (by simp [bookSimple]) (by simp [bookSimple])
    (by norm_num [bestAsk, bookSimple]) (by norm_num [bestBid, bookSimple])
    (by
      intro l hl
      rw [slipLevels, if_pos rfl] at hl
      simp only [bookSimple, List.mem_singleton] at hl
      rw [hl]
      norm_num)
    (by norm_num [totalCap, slipLevels, bookSimple])

/-- C2 counterexample: with all four venues invalid, the `/api/sheets`
comparator (cited in the claim's sources) yields the placeholder string
"N/A" — a present string value, not an absent one (`none`/`null`). -/
theorem C2_counterexample :
    invalidSR.valid = false ∧
    sheetsWinner invalidSR invalidSR invalidSR invalidSR = some "N/A" ∧
    sheetsWinner invalidSR invalidSR invalidSR invalidSR ≠ none := by
  refine ⟨rfl, rfl, ?_⟩
  simp [sheetsWinner, sheetsValidResults, invalidSR, calcSlippage,
    emptyBook, sortBySlip]

/-- C2 (amended): the data-collector comparator returns `none` (null)
exactly when no venue is valid and otherwise returns the venue of minimum
slippage among valid venues, ties broken in favor of the venue listed
first in the canonical order (hyperliquid, lighter, aster, binance); the
`/api/sheets` comparator selects the same way but returns the placeholder
string "N/A", not an absent value, when no venue is valid. -/
theorem C2_winner_selection (hl lt asr bn : FillResult)
    (hl2 lt2 as2 bn2 : SlipResult) :
    ((collectWinner hl lt asr bn = none ↔ validResults hl lt asr bn = []) ∧
      (∀ name : String, collectWinner hl lt asr bn = some name →
        ∃ i : ℕ, ∃ s : ℚ,
          (validResults hl lt asr bn)[i]? = some (name, s) ∧
          (∀ p ∈ validResults hl lt asr bn, s ≤ p.2) ∧
          (∀ j : ℕ, ∀ p : String × ℚ, j < i →
            (validResults hl lt asr bn)[j]? = some p → s < p.2))) ∧
    (sheetsValidResults hl2 lt2 as2 bn2 = [] →
      sheetsWinner hl2 lt2 as2 bn2 = some "N/A") := by
  refine ⟨⟨?_, ?_⟩, ?_⟩
  · rw [collectWinner_eq_specWinner]
    constructor
    · intro h
      rcases he : specWinner (validResults hl lt asr bn) with _ | m
      · exact (specWinner_eq_none _).mp he
      · rw [he] at h
        simp at h
    · intro h
      rw [(specWinner_eq_none _).mpr h]
      rfl
  · intro name h
    rw [collectWinner_eq_specWinner] at h
    rcases he : specWinner (validResults hl lt asr bn) with _ | m
    · rw [he] at h
      simp at h
    · rw [he] at h
      have hm1 : m.1 = name := by simpa using h
      obtain ⟨i, hget, hmin, hfirst⟩ := specWinner_min _ he
      refine ⟨i, m.2, ?_, hmin, fun j p hj hg => hfirst j p hj hg⟩
      rw [← hm1]
      simpa using hget
  · intro h
    rw [sheetsWinner_eq_specWinner, (specWinner_eq_none _).mpr h]

/-- C2 witness: the amended theorem applied to all-invalid inputs. -/
theorem C2_witness :
    collectWinner invalidFR invalidFR invalidFR invalidFR = none ∧
    sheetsWinner invalidSR invalidSR invalidSR invalidSR = some "N/A" := by
  have h := C2_winner_selection invalidFR invalidFR invalidFR invalidFR
    invalidSR invalidSR invalidSR invalidSR
  exact ⟨h.1.1.mpr rfl, h.2 rfl⟩

theorem avg_floor (L : List Level) {q n : ℚ}
    (hfloor : ∀ l ∈ L, q ≤ l.price ∧ 0 < l.price ∧ 0 ≤ l.size)
    (hpos : 0 < wfill n L) : q ≤ wcost n L / wfill n L := by
  have hn : ¬ n ≤ 0 := by
    intro hc
    rw [wfill_nonpos hc] at hpos
    exact absurd hpos (by norm_num)
  have t := wfill_floor L hfloor (le_of_lt (lt_of_not_le hn))
  rw [wfill_nonpos le_rfl, wcost_nonpos le_rfl] at t
  rw [le_div_iff₀ hpos]
  linarith

theorem avg_ceil (L : List Level) {q n : ℚ}
    (hceil : ∀ l ∈ L, l.price ≤ q ∧ 0 < l.price ∧ 0 ≤ l.size)
    (hpos : 0 < wfill n L) : wcost n L / wfill n L ≤ q := by
  have hn : ¬ n ≤ 0 := by
    intro hc
    rw [wfill_nonpos hc] at hpos
    exact absurd hpos (by norm_num)
  have t := wfill_ceil L hceil (le_of_lt (lt_of_not_le hn))
  rw [wfill_nonpos le_rfl, wcost_nonpos le_rfl] at t
  rw [div_le_iff₀ hpos]
  linarith

theorem abs_slip_mono_ge {M A1 A2 : ℚ} (hM : 0 < M) (h1 : M ≤ A1)
    (h2 : A1 ≤ A2) : |(A1 - M) / M * 100| ≤ |(A2 - M) / M * 100| := by
  have d1 : (0:ℚ) ≤ (A1 - M) / M := div_nonneg (by linarith) hM.le
  have d2 : (0:ℚ) ≤ (A2 - M) / M := div_nonneg (by linarith) hM.le
  have g1 : (0:ℚ) ≤ (A1 - M) / M * 100 := by linarith
  have g2 : (0:ℚ) ≤ (A2 - M) / M * 100 := by linarith
  rw [abs_of_nonneg g1, abs_of_nonneg g2]
  have : (A1 - M) / M ≤ (A2 - M) / M :=
    (div_le_div_iff_of_pos_right hM).mpr (by linarith)
  linarith

theorem abs_slip_mono_le {M A1 A2 : ℚ} (hM : 0 < M) (h1 : A1 ≤ M)
    (h2 : A2 ≤ A1) : |(A1 - M) / M * 100| ≤ |(A2 - M) / M * 100| := by
  have d1 : (A1 - M) / M ≤ 0 := by
    have := (div_le_div_iff_of_pos_right hM).mpr
      (show A1 - M ≤ 0 by linarith)
    rw [zero_div] at this
    exact this
  have d2 : (A2 - M) / M ≤ 0 := by
    have := (div_le_div_iff_of_pos_right hM).mpr
      (show A2 - M ≤ 0 by linarith)
    rw [zero_div] at this
    exact this
  have g1 : (A1 - M) / M * 100 ≤ 0 := by linarith
  have g2 : (A2 - M) / M * 100 ≤ 0 := by linarith
  rw [abs_of_nonpos g1, abs_of_nonpos g2]
  have : (A2 - M) / M ≤ (A1 - M) / M :=
    (div_le_div_iff_of_pos_right hM).mpr (by linarith)
  linarith

theorem calculateSlippage_levels_eq (ob : OrderBook) (n : ℚ) (side : String)
    (hb : ob.bids ≠ []) (ha : ob.asks ≠ [])
    (hba : 0 < bestAsk ob) (hbb : 0 < bestBid ob) :
    (calculateSlippage ob n side).levels = wlev n (slipLevels ob side) := by
  by_cases hf : wfill n (slipLevels ob side) = 0
  · rw [calculateSlippage_of_zero ob n side hb ha hba hbb hf]
  · rw [calculateSlippage_of_filled ob n side hb ha hba hbb hf]

theorem calculateSlippage_slippage_nonneg (ob : OrderBook) (n : ℚ)
    (side : String) (hb : ob.bids ≠ []) (ha : ob.asks ≠ [])
    (hba : 0 < bestAsk ob) (hbb : 0 < bestBid ob) :
    0 ≤ (calculateSlippage ob n side).slippage := by
  by_cases hf : wfill n (slipLevels ob side) = 0
  · rw [calculateSlippage_of_zero ob n side hb ha hba hbb hf]
  · rw [calculateSlippage_of_filled ob n side hb ha hba hbb hf]
    exact abs_nonneg _

/-- C5 counterexample: on the crossed book `crossedBook2` (best bid 103
above best ask 100) with a sorted positive ask ladder and side buy, the
larger notional 203 produces a strictly smaller slippage than notional 50,
so slippage is not monotone in the notional over all order books with a
sorted ladder. -/
theorem C5_counterexample :
    (50:ℚ) ≤ 203 ∧
    (slipLevels crossedBook2 ("buy")).Pairwise
      (fun a b => a.price ≤ b.price) ∧
    (∀ l ∈ slipLevels crossedBook2 ("buy"), 0 < l.price ∧ 0 < l.size) ∧
    (calculateSlippage crossedBook2 203 ("buy")).slippage <
      (calculateSlippage crossedBook2 50 ("buy")).slippage := by
  refine ⟨by norm_num, ?_, ?_, ?_⟩
  · rw [slipLevels, if_pos rfl]
    simp only [crossedBook2]
    norm_num [List.pairwise_cons]
  · intro l hl
    rw [slipLevels, if_pos rfl] at hl
    simp only [crossedBook2, List.mem_cons, List.mem_singleton] at hl
    rcases hl with hl | hl | hl
    · rw [hl]
      norm_num
    · rw [hl]
      norm_num
    · simp at hl
  · have e1 : (calculateSlippage crossedBook2 203 ("buy")).slippage =
        60900 / 42427 := by
      norm_num [calculateSlippage, walk, slipLevels, bestBid, bestAsk,
        crossedBook2, min_def, abs_div, abs_sub_comm]
    have e2 : (calculateSlippage crossedBook2 50 ("buy")).slippage =
        300 / 203 := by
      norm_num [calculateSlippage, walk, slipLevels, bestBid, bestAsk,
        crossedBook2, min_def, abs_div, abs_sub_comm]
    rw [e1, e2]
    norm_num

/-- C5 (amended): on a valid, non-crossed book (non-empty sides, positive
best prices, best bid at most best ask) whose walked ladder has positive
prices, nonnegative sizes, and is sorted by increasing cost-to-fill
(asks ascending for a buy, bids descending for a sell), increasing the
notional never decreases `levels` or `slippage`. -/
theorem C5_monotonicity (ob : OrderBook) (side : String) (n1 n2 : ℚ)
    (hn : n1 ≤ n2)
    (hb : ob.bids ≠ []) (ha : ob.asks ≠ [])
    (hbb : 0 < bestBid ob) (hba : 0 < bestAsk ob)
    (hcross : bestBid ob ≤ bestAsk ob)
    (hL : ∀ l ∈ slipLevels ob side, 0 < l.price ∧ 0 ≤ l.size)
    (hdir : (side = "buy" ∧
        (slipLevels ob side).Pairwise (fun a b => a.price ≤ b.price)) ∨
      (side = "sell" ∧
        (slipLevels ob side).Pairwise (fun a b => b.price ≤ a.price))) :
    (calculateSlippage ob n1 side).levels ≤
      (calculateSlippage ob n2 side).levels ∧
    (calculateSlippage ob n1 side).slippage ≤
      (calculateSlippage ob n2 side).slippage := by
  constructor
  · rw [calculateSlippage_levels_eq ob n1 side hb ha hba hbb,
      calculateSlippage_levels_eq ob n2 side hb ha hba hbb]
    exact wlev_mono _ hn
  · by_cases hf1 : wfill n1 (slipLevels ob side) = 0
    · rw [calculateSlippage_of_zero ob n1 side hb ha hba hbb hf1]
      exact calculateSlippage_slippage_nonneg ob n2 side hb ha hba hbb
    · have hfpos1 : 0 < wfill n1 (slipLevels ob side) :=
        lt_of_le_of_ne (wfill_nonneg _ hL n1) (Ne.symm hf1)
      have hfpos2 : 0 < wfill n2 (slipLevels ob side) :=
        lt_of_lt_of_le hfpos1 (wfill_mono _ hn hL)
      rw [calculateSlippage_of_filled ob n1 side hb ha hba hbb hf1,
        calculateSlippage_of_filled ob n2 side hb ha hba hbb
          (ne_of_gt hfpos2)]
      have hM : 0 < (bestBid ob + bestAsk ob) / 2 := by linarith
      rcases hdir with ⟨hsd, hsort⟩ | ⟨hsd, hsort⟩
      · have hasks : slipLevels ob side = ob.asks := by
          rw [slipLevels, if_pos hsd]
        obtain ⟨hd, tl, he⟩ := List.exists_cons_of_ne_nil ha
        have hhead : bestAsk ob = hd.price := by
          rw [bestAsk, he]
          rfl
        have hfloor : ∀ l ∈ slipLevels ob side,
            bestAsk ob ≤ l.price ∧ 0 < l.price ∧ 0 ≤ l.size := by
          intro l hl
          refine ⟨?_, (hL l hl).1, (hL l hl).2⟩
          rw [hasks, he] at hl
          rcases List.mem_cons.mp hl with hl | hl
          · rw [hl, hhead]
          · rw [hhead]
            have hs2 := hsort
            rw [hasks, he] at hs2
            exact (List.pairwise_cons.mp hs2).1 l hl
        have havg1 : bestAsk ob ≤
            wcost n1 (slipLevels ob side) / wfill n1 (slipLevels ob side) :=
          avg_floor _ hfloor hfpos1
        have hA12 : wcost n1 (slipLevels ob side) /
              wfill n1 (slipLevels ob side) ≤
            wcost n2 (slipLevels ob side) / wfill n2 (slipLevels ob side) := by
          rw [div_le_div_iff₀ hfpos1 hfpos2]
          exact wcross_asc _ hL hsort hn
        exact abs_slip_mono_ge hM (by linarith) hA12
      · have hbids : slipLevels ob side = ob.bids := by
          rw [slipLevels, hsd, if_neg (by decide)]
        obtain ⟨hd, tl, he⟩ := List.exists_cons_of_ne_nil hb
        have hhead : bestBid ob = hd.price := by
          rw [bestBid, he]
          rfl
        have hceil : ∀ l ∈ slipLevels ob side,
            l.price ≤ bestBid ob ∧ 0 < l.price ∧ 0 ≤ l.size := by
          intro l hl
          refine ⟨?_, (hL l hl).1, (hL l hl).2⟩
          rw [hbids, he] at hl
          rcases List.mem_cons.mp hl with hl | hl
          · rw [hl, hhead]
          · rw [hhead]
            have hs2 := hsort
            rw [hbids, he] at hs2
            exact (List.pairwise_cons.mp hs2).1 l hl
        have havg1 : wcost n1 (slipLevels ob side) /
            wfill n1 (slipLevels ob side) ≤ bestBid ob :=
          avg_ceil _ hceil hfpos1
        have hA21 : wcost n2 (slipLevels ob side) /
              wfill n2 (slipLevels ob side) ≤
            wcost n1 (slipLevels ob side) / wfill n1 (slipLevels ob side) := by
          rw [div_le_div_iff₀ hfpos2 hfpos1]
          exact wcross_desc _ hL hsort hn
        exact abs_slip_mono_le hM (by linarith) hA21

/-- C5 witness: the amended theorem applied to `bookSimple` (non-crossed,
sorted) with notionals 50 and 150 on the buy side. -/
theorem C5_witness :
    (calculateSlippage bookSimple 50 ("buy")).levels ≤
      (calculateSlippage bookSimple 150 ("buy")).levels ∧
    (calculateSlippage bookSimple 50 ("buy")).slippage ≤
      (calculateSlippage bookSimple 150 ("buy")).slippage :=
  C5_monotonicity bookSimple ("buy") 50 150 (by norm_num)
    (by simp [bookSimple]) (by simp [bookSimple])
    (by norm_num [bestBid, bookSimple]) (by norm_num [bestAsk, bookSimple])
    (by norm_num [bestBid, bestAsk, bookSimple])
    (by
      intro l hl
      rw [slipLevels, if_pos rfl] at hl
      simp only [bookSimple, List.mem_singleton] at hl
      rw [hl]
      norm_num)
    (Or.inl ⟨rfl, by
      rw [slipLevels, if_pos rfl]
      simp [bookSimple]⟩)
